import Mathlib

/-!
Verification development for the TikSave repository: a shallow embedding of
the download-acquisition fallback chains, the history/favorites store, the
link validator, the metadata-resolver error classification, the filename
derivation and the history-clearing persistence behaviour, together with
theorems settling the specification claims about them.

Source layout: `src/index.tsx` holds two app variants (the first one is the
cited one), `src/unnamed/part_000` holds two further variants (an HD variant
and a slideshow variant), `src/unnamed/part_001` holds a two-attempt variant.
-/

/-- A binary blob, modelled as its list of bytes.  `b.length` plays the role
of `blob.size` in the browser. -/
abbrev Blob : Type := List Nat

/-- The outcome assigned to one fetch strategy of an acquisition chain:
`none` models the strategy throwing (network error, or a non-ok HTTP status
turned into a thrown error by the strategy body), `some b` models an ok
response whose body was read into the blob `b` (possibly empty). -/
abbrev Outcome : Type := Option Blob

/-- Failure of a strategy in the sense used by the chains of
`src/unnamed/part_000`: it threw, or it produced a zero-length body. -/
def chainFails : Outcome → Bool
  | none => true
  | some b => b.isEmpty

/-- The `fetchBlob` helper of the slideshow variant
(`src/unnamed/part_000`, lines 1240-1253):

for each strategy in order, run it; on a thrown error continue; if the blob
has positive size return it; otherwise continue; after the last strategy,
throw.  The model maps a list of strategy outcomes to the returned blob
(`none` = the final throw) paired with the number of strategies invoked. -/
def fetchBlobRun : List Outcome → Option Blob × Nat
  | [] => (none, 0)
  | o :: rest =>
    match o with
    | none =>
      let r := fetchBlobRun rest
      (r.1, r.2 + 1)
    | some b =>
      if 0 < b.length then (some b, 1)
      else
        let r := fetchBlobRun rest
        (r.1, r.2 + 1)

/-- The strategy loop of the HD variant's `handleDownload`
(`src/unnamed/part_000`, lines 316-323):

`let blob = null; for (strategy of strategies) { try { blob = await strategy();
if (blob && blob.size > 0) break; } catch { continue; } }`.

Unlike `fetchBlob`, the mutable `blob` keeps an earlier empty result when a
later strategy throws, so the accumulator `acc` is threaded through.  Returns
the final value of `blob` and the number of strategies invoked. -/
def corsLoop (acc : Option Blob) : List Outcome → Option Blob × Nat
  | [] => (acc, 0)
  | o :: rest =>
    match o with
    | none =>
      let r := corsLoop acc rest
      (r.1, r.2 + 1)
    | some b =>
      if 0 < b.length then (some b, 1)
      else
        let r := corsLoop (some b) rest
        (r.1, r.2 + 1)

/-- The chain of the first `src/index.tsx` variant's `handleDownload`
(lines 215-245): `if (!blob) { try { const response = await fetch(...);
if (response.ok) blob = await response.blob(); } catch {} }` repeated.
The chain stops at the first ok response, with no size check at all. -/
def indexChainRun : List Outcome → Option Blob × Nat
  | [] => (none, 0)
  | o :: rest =>
    match o with
    | some b => (some b, 1)
    | none =>
      let r := indexChainRun rest
      (r.1, r.2 + 1)

/-- What `handleDownload` of the HD variant does after its strategy loop
(`src/unnamed/part_000`, lines 325-338): if `blob` is non-null, create an
object URL and click a synthetic anchor (`materialized`); otherwise throw,
which the surrounding catch turns into the download-failed error message
(`failed`). -/
inductive DownloadResult : Type
  | materialized (b : Blob)
  | failed
deriving DecidableEq

/-- The acquisition outcome of the HD variant's `handleDownload`
(loop at lines 316-323 followed by the `if (blob)` test at line 325). -/
def loopDownload (outs : List Outcome) : DownloadResult :=
  match (corsLoop none outs).1 with
  | some b => .materialized b
  | none => .failed

/-- The acquisition outcome of the slideshow variant's `handleDownload`
(`src/unnamed/part_000`, lines 1266-1281): `fetchBlob` succeeding leads to
materialization, its throw is caught and shown as a failure toast. -/
def slideshowDownload (outs : List Outcome) : DownloadResult :=
  match (fetchBlobRun outs).1 with
  | some b => .materialized b
  | none => .failed

/-- Result of `handleDownload` in `src/unnamed/part_001` (lines 135-175):
first attempt is a direct fetch (ok response, of any size, is saved via
`downloadBlob`), second a single CORS proxy; if both fail the code clicks a
synthetic anchor pointing at the raw media URL (`fallbackClick`). -/
inductive P1Result : Type
  | saved (b : Blob)
  | fallbackClick
deriving DecidableEq

/-- The two-attempt download of `src/unnamed/part_001`, lines 144-171. -/
def p1Download (o1 o2 : Outcome) : P1Result :=
  match o1 with
  | some b => .saved b
  | none =>
    match o2 with
    | some b => .saved b
    | none => .fallbackClick

/-- Kind of a fetch strategy: a public CORS proxy (tagged by its host) or the
direct fetch of the media URL. -/
inductive StrategyKind : Type
  | proxy (host : String)
  | direct
deriving DecidableEq

/-- Strategy order of the HD variant (`src/unnamed/part_000`, lines 283-314):
four proxies, then the direct fetch as a last resort. -/
def corsLoopKinds : List StrategyKind :=
  [.proxy "corsproxy.io", .proxy "api.codetabs.com",
   .proxy "thingproxy.freeboard.io", .proxy "api.allorigins.win", .direct]

/-- Strategy order of the slideshow variant's `fetchBlob`
(`src/unnamed/part_000`, lines 1241-1245): two proxies, then direct. -/
def fetchBlobKinds : List StrategyKind :=
  [.proxy "corsproxy.io", .proxy "api.codetabs.com", .direct]

/-- Strategy order of the first `src/index.tsx` variant's `handleDownload`
(lines 217-245): the direct fetch comes FIRST, then two proxies. -/
def indexKinds : List StrategyKind :=
  [.direct, .proxy "corsproxy.io", .proxy "api.allorigins.win"]

/-- Strategy order of `src/unnamed/part_001` (lines 144-159): direct fetch
first, then a single proxy. -/
def p1Kinds : List StrategyKind :=
  [.direct, .proxy "corsproxy.io"]

/-- The strategies actually invoked in a run of the HD variant's loop. -/
def corsLoopAttempted (outs : List Outcome) : List StrategyKind :=
  corsLoopKinds.take (corsLoop none outs).2

/-- The strategies actually invoked in a run of `fetchBlob`. -/
def fetchBlobAttempted (outs : List Outcome) : List StrategyKind :=
  fetchBlobKinds.take (fetchBlobRun outs).2

/-- The strategies actually invoked in a run of the `index.tsx` chain. -/
def indexAttempted (outs : List Outcome) : List StrategyKind :=
  indexKinds.take (indexChainRun outs).2

/-- Number of attempts made by the `part_001` download: the proxy runs only
when the direct fetch fails. -/
def p1Attempts (o1 : Outcome) : Nat :=
  match o1 with
  | some _ => 1
  | none => 2

/-- The strategies actually invoked in a run of the `part_001` download. -/
def p1Attempted (o1 : Outcome) : List StrategyKind :=
  p1Kinds.take (p1Attempts o1)

/-- Whether a strategy kind is a proxy. -/
def StrategyKind.isProxy : StrategyKind → Bool
  | .proxy _ => true
  | .direct => false

/-- The formal reading of the ordering claim for one chain: whenever the
direct fetch is attempted in a run, every proxy position of the strategy
list was attempted before it and failed. -/
def proxiesBeforeDirect (kinds : List StrategyKind)
    (attempts : List Outcome → Nat) : Prop :=
  ∀ outs : List Outcome, outs.length = kinds.length →
    StrategyKind.direct ∈ kinds.take (attempts outs) →
    ∀ j, j < kinds.length → (kinds.getD j .direct).isProxy = true →
      j < attempts outs ∧ chainFails (outs.getD j none) = true

/-- The normalized video record built by `handleProcess` from the lookup
response (`src/index.tsx`, lines 151-163; author and stats flattened). -/
structure VideoData : Type where
  id : String
  url : String
  playUrl : String
  musicUrl : Option String
  cover : String
  title : String
  authorNickname : String
  authorAvatar : String
  statsPlays : String
  statsLikes : String
deriving DecidableEq

/-- One history entry: `{ timestamp: Date.now(), data: item }`. -/
structure HistoryItem : Type where
  timestamp : Nat
  data : VideoData
deriving DecidableEq

/-- `addToHistory` (`src/index.tsx` lines 189-194, `src/unnamed/part_000`
lines 1233-1238, `src/unnamed/part_001` lines 117-122): filter out entries
whose record id equals the new record's id, prepend the new entry, keep the
first `maxLen` entries (`slice(0, 10)`, or `slice(0, 50)` in the slideshow
variant). -/
def addToHistory (maxLen : Nat) (now : Nat) (item : VideoData)
    (prev : List HistoryItem) : List HistoryItem :=
  (⟨now, item⟩ :: prev.filter (fun h => h.data.id != item.id)).take maxLen

/-- A finite sequence of `addToHistory` calls, each with its timestamp. -/
def runAdditions (maxLen : Nat) (init : List HistoryItem)
    (calls : List (Nat × VideoData)) : List HistoryItem :=
  calls.foldl (fun acc c => addToHistory maxLen c.1 c.2 acc) init

/-- The record ids of a history list, in order. -/
def historyIds (h : List HistoryItem) : List String :=
  h.map (fun e => e.data.id)

/-- A concrete video record with the given id (used to instantiate theorems
on explicit inputs). -/
def sampleVideo (id : String) : VideoData :=
  ⟨id, "https://vt.tiktok.com/x/", "https://x/a.mp4", none, "c", "title",
   "nick", "avatar", "0", "0"⟩

/-- A concrete history list holding one entry per given id, in order. -/
def sampleHistory (ids : List String) : List HistoryItem :=
  ids.map (fun i => ⟨0, sampleVideo i⟩)

/-- `toggleFavorite` (`src/unnamed/part_000`, lines 1005-1019): if some
favorite has the record's id, remove all entries with that id, otherwise
prepend the record.  (The toast and local-storage writes are UI side effects
outside the list transformation.) -/
def toggleFavorite (video : VideoData) (prev : List VideoData) :
    List VideoData :=
  match prev.find? (fun v => v.id == video.id) with
  | some _ => prev.filter (fun v => v.id != video.id)
  | none => video :: prev

/-- `isFavorite` (`src/unnamed/part_000`, line 1021):
`favorites.some(v => v.id === id)`. -/
def isFavorite (favorites : List VideoData) (id : String) : Bool :=
  favorites.any (fun v => v.id == id)

/-- Media kind requested for a download; determines the file extension
(`src/unnamed/part_000`, lines 1259-1261). -/
inductive MediaKind : Type
  | video
  | audio
  | image
deriving DecidableEq

/-- Extension chosen from the media kind (`mp4` / `mp3` / `jpg`). -/
def extOf : MediaKind → String
  | .video => "mp4"
  | .audio => "mp3"
  | .image => "jpg"

/-- A character kept by the sanitizer regex `[^a-z0-9]/gi`: an ASCII letter
(either case) or an ASCII digit. -/
def isTitleKeep (c : Char) : Bool :=
  c.isAlpha || c.isDigit

/-- `cleanTitle` (`src/unnamed/part_000`, line 1263):
`(result.title || 'video').replace(/[^a-z0-9]/gi, '_').substring(0, 30)`. -/
def cleanTitle (title : String) : String :=
  let base := if title = "" then "video" else title
  String.mk ((base.toList.map (fun c => if isTitleKeep c then c else '_')).take 30)

/-- Filename derivation of the slideshow variant's `handleDownload`
(`src/unnamed/part_000`, line 1264):
`tiksave_id_cleanTitle_label.ext` composed from the record id, the
sanitized title, the quality/type label and the media-kind extension. -/
def deriveFilename (id title label : String) (kind : MediaKind) : String :=
  "tiksave_" ++ id ++ "_" ++ cleanTitle title ++ "_" ++ label ++ "." ++ extOf kind

/-- The filename `handleDownload` derives for a record. -/
def filenameFor (r : VideoData) (label : String) (kind : MediaKind) : String :=
  deriveFilename r.id r.title label kind

/-- JavaScript `s.toLowerCase()` restricted to the simple per-character
lowering (sufficient for the ASCII needle `"private"`). -/
def jsToLower (s : String) : String :=
  String.mk (s.toList.map Char.toLower)

/-- Whether the first list is a leading segment of the second. -/
def leadsWith : List Char → List Char → Bool
  | [], _ => true
  | _ :: _, [] => false
  | p :: ps, c :: cs => p = c && leadsWith ps cs

/-- Whether the needle occurs contiguously anywhere in the haystack. -/
def occursIn : List Char → List Char → Bool
  | needle, [] => needle.isEmpty
  | needle, c :: cs => leadsWith needle (c :: cs) || occursIn needle cs

/-- JavaScript `hay.includes(needle)`. -/
def strContains (hay needle : String) : Bool :=
  occursIn needle.toList hay.toList

/-- The test `msg.toLowerCase().includes("private")` of `handleProcess`
(`src/index.tsx`, line 173). -/
def mentionsPrivate (msg : String) : Bool :=
  strContains (jsToLower msg) "private"

/-- The test `msg.includes("parsing")` of `handleProcess`
(`src/index.tsx`, line 175); note it is case sensitive in the source. -/
def mentionsParsing (msg : String) : Bool :=
  strContains msg "parsing"

/-- JavaScript `s || dflt` on an optional string: the default is used when
the field is absent or the empty string. -/
def jsOrDefault (s : Option String) (dflt : String) : String :=
  match s with
  | none => dflt
  | some t => if t = "" then dflt else t

/-- The error classes produced by the resolver's non-success branch. -/
inductive ResolveError : Type
  | privateOrDeleted
  | regionRestricted
  | generic (msg : String)
deriving DecidableEq

/-- The classification of the provider's failure message
(`src/index.tsx`, lines 172-179). -/
def classifyFailure (msg : String) : ResolveError :=
  if mentionsPrivate msg then .privateOrDeleted
  else if mentionsParsing msg then .regionRestricted
  else .generic msg

/-- The lookup response of the tikwm API as consumed by `handleProcess`:
a numeric status code, an optional message, and the mapped record (present
on success responses). -/
structure LookupResponse : Type where
  code : Int
  msg : Option String
  record : Option VideoData

/-- The response handling of `handleProcess` (`src/index.tsx`, lines
150-180): on `code === 0` the record is stored into history (maximum 10);
otherwise the message is classified and history is untouched.  Returns the
error produced (if any) and the new history list. -/
def processResponse (resp : LookupResponse) (now : Nat)
    (hist : List HistoryItem) : Option ResolveError × List HistoryItem :=
  if resp.code = 0 then
    match resp.record with
    | some vd => (none, addToHistory 10 now vd hist)
    | none => (none, hist)
  else
    (some (classifyFailure (jsOrDefault resp.msg "Failed to fetch video.")), hist)

/-- Serialization of a video record in the shape `JSON.stringify` gives it
(string escaping elided; only the shape matters to the claims). -/
def serializeVideoData (v : VideoData) : String :=
  "\x7b\"id\":\"" ++ v.id ++ "\",\"url\":\"" ++ v.url ++ "\",\"title\":\"" ++
    v.title ++ "\"\x7d"

/-- Serialization of one history entry. -/
def serializeItem (e : HistoryItem) : String :=
  "\x7b\"timestamp\":" ++ toString e.timestamp ++ ",\"data\":" ++
    serializeVideoData e.data ++ "\x7d"

/-- `JSON.stringify(history)`: in particular the empty list serializes to
`"[]"`. -/
def serializeHistory (hist : List HistoryItem) : String :=
  "[" ++ String.intercalate "," (hist.map serializeItem) ++ "]"

/-- The in-memory history list together with the value stored under the
local-storage key `"tiksave-history"` (`none` = key absent). -/
structure AppStorage : Type where
  history : List HistoryItem
  storedHistory : Option String
deriving DecidableEq

/-- The clear-history click handler (`src/index.tsx`, line 482):
`setHistory([]); localStorage.removeItem('tiksave-history')`. -/
def clearHistoryClick (_st : AppStorage) : AppStorage :=
  ⟨[], none⟩

/-- The history persistence effect (`src/index.tsx`, lines 108-110, and
`src/unnamed/part_000`, line 1134): after every change of `history`,
`localStorage.setItem("tiksave-history", JSON.stringify(history))`. -/
def historyPersistEffect (st : AppStorage) : AppStorage :=
  ⟨st.history, some (serializeHistory st.history)⟩

/-- The complete clear operation: the click handler runs, then React re-runs
the persistence effect because the `history` state changed (the clear
control is only rendered when the list is non-empty). -/
def clearHistoryOp (st : AppStorage) : AppStorage :=
  historyPersistEffect (clearHistoryClick st)

/-- The whitespace class of the JavaScript regex `\s`. -/
def jsWsChars : List Char :=
  [' ', '\t', '\n', '\r', '\x0b', '\x0c', '\u00A0', '\u1680', '\u2000',
   '\u2001', '\u2002', '\u2003', '\u2004', '\u2005', '\u2006', '\u2007',
   '\u2008', '\u2009', '\u200A', '\u2028', '\u2029', '\u202F', '\u205F',
   '\u3000', '\uFEFF']

/-- Whether a character is JavaScript regex whitespace. -/
def isJsWs (c : Char) : Bool :=
  jsWsChars.contains c

/-- Match a literal character sequence at the front of the input, returning
the remainder on success. -/
def dropLit : List Char → List Char → Option (List Char)
  | [], cs => some cs
  | _ :: _, [] => none
  | p :: ps, c :: cs => if c = p then dropLit ps cs else none

/-- The greedy `[^\s]+` tail: the maximal leading run of non-whitespace. -/
def takeNonWs : List Char → List Char
  | [] => []
  | c :: cs => if isJsWs c then [] else c :: takeNonWs cs

/-- The literal `http` (common prefix of both scheme branches). -/
def httpLit : List Char := ['h', 't', 't', 'p']

/-- The scheme literal `http://`. -/
def httpSchemeLit : List Char := ['h', 't', 't', 'p', ':', '/', '/']

/-- The scheme literal `https://`. -/
def httpsSchemeLit : List Char := ['h', 't', 't', 'p', 's', ':', '/', '/']

/-- The host literal `tiktok.com/`. -/
def hostLit : List Char := ['t', 'i', 'k', 't', 'o', 'k', '.', 'c', 'o', 'm', '/']

/-- The subdomain alternative `www.`. -/
def wwwLit : List Char := ['w', 'w', 'w', '.']

/-- The subdomain alternative `vm.`. -/
def vmLit : List Char := ['v', 'm', '.']

/-- The subdomain alternative `vt.`. -/
def vtLit : List Char := ['v', 't', '.']

/-- The subdomain alternative `m.`. -/
def mLit : List Char := ['m', '.']

/-- The subdomain alternative `t.`. -/
def tLit : List Char := ['t', '.']

/-- The ordered subdomain alternatives of
`(?:www\.|vm\.|vt\.|m\.|t\.)?` (the empty alternative is tried last,
matching the greedy `?`). -/
def subdomainAlts : List (List Char) :=
  [wwwLit, vmLit, vtLit, mLit, tLit]

/-- Match `tiktok\.com\/[^\s]+` at the front of the input, returning the
matched characters. -/
def matchHostTail (cs : List Char) : Option (List Char) :=
  match dropLit hostLit cs with
  | none => none
  | some rest =>
    if (takeNonWs rest).isEmpty then none
    else some (hostLit ++ takeNonWs rest)

/-- Match the optional subdomain followed by the host tail, trying the given
alternatives in order with backtracking, the empty alternative last. -/
def matchSub : List (List Char) → List Char → Option (List Char)
  | [], cs => matchHostTail cs
  | p :: ps, cs =>
    match dropLit p cs with
    | none => matchSub ps cs
    | some rest =>
      match matchHostTail rest with
      | none => matchSub ps cs
      | some m => some (p ++ m)

/-- Match the full pattern `https?:\/\/(?:www\.|vm\.|vt\.|m\.|t\.)?tiktok\.com\/[^\s]+`
at the front of the input.  The greedy `s?` is realized by trying the
`https://` branch first and falling back to `http://`. -/
def matchScheme (cs : List Char) : Option (List Char) :=
  match dropLit httpsSchemeLit cs with
  | some rest => (matchSub subdomainAlts rest).map (fun m => httpsSchemeLit ++ m)
  | none =>
    match dropLit httpSchemeLit cs with
    | some rest => (matchSub subdomainAlts rest).map (fun m => httpSchemeLit ++ m)
    | none => none

/-- Leftmost-match scan, as `String.prototype.match` performs for a regex
without the global flag. -/
def scanMatch : List Char → Option (List Char)
  | [] => none
  | c :: cs =>
    match matchScheme (c :: cs) with
    | some m => some m
    | none => scanMatch cs

/-- The trailing punctuation class `[.,;!?)]` stripped by
`match[0].replace(/[.,;!?)]+$/, "")`. -/
def isTrailPunct (c : Char) : Bool :=
  c = '.' || c = ',' || c = ';' || c = '!' || c = '?' || c = ')'

/-- Drop the maximal trailing run of punctuation characters. -/
def dropTrailPunct (cs : List Char) : List Char :=
  (cs.reverse.dropWhile isTrailPunct).reverse

/-- `extractUrl` (`src/index.tsx`, lines 64-68): match the TikTok URL regex
against the text, and strip trailing punctuation from the first match. -/
def extractUrl (text : String) : Option String :=
  match scanMatch text.toList with
  | none => none
  | some m => some (String.mk (dropTrailPunct m))

/-! ## Helper lemmas about the acquisition chains -/

/-- A chain never attempts more strategies than it has outcomes. -/
theorem corsLoop_attempts_le (outs : List Outcome) :
    ∀ acc, (corsLoop acc outs).2 ≤ outs.length := by
  induction outs with
  | nil => intro acc; simp [corsLoop]
  | cons o rest ih =>
    intro acc
    cases o with
    | none => simpa [corsLoop] using ih acc
    | some bb =>
      by_cases hl : 0 < bb.length
      · simp [corsLoop, hl]
      · simpa [corsLoop, hl] using ih (some bb)

/-- If the HD-variant loop got past position `j`, the outcome at `j` was a
failure (a thrown error or an empty body). -/
theorem corsLoop_fail_of_lt (outs : List Outcome) :
    ∀ acc j, j + 1 < (corsLoop acc outs).2 →
      chainFails (outs.getD j none) = true := by
  induction outs with
  | nil => intro acc j h; simp [corsLoop] at h
  | cons o rest ih =>
    intro acc j h
    cases o with
    | none =>
      cases j with
      | zero => simp [chainFails]
      | succ j =>
        simp only [corsLoop] at h
        exact ih acc j (by omega)
    | some bb =>
      by_cases hl : 0 < bb.length
      · simp [corsLoop, hl] at h
      · cases j with
        | zero =>
          simp only [List.getD_cons_zero, chainFails]
          simpa [List.isEmpty_iff, List.length_eq_zero] using hl
        | succ j =>
          simp only [corsLoop, hl, if_false] at h
          exact ih (some bb) j (by omega)

/-- `fetchBlob` never attempts more strategies than it has outcomes. -/
theorem fetchBlobRun_attempts_le (outs : List Outcome) :
    (fetchBlobRun outs).2 ≤ outs.length := by
  induction outs with
  | nil => simp [fetchBlobRun]
  | cons o rest ih =>
    cases o with
    | none => simpa [fetchBlobRun] using ih
    | some bb =>
      by_cases hl : 0 < bb.length
      · simp [fetchBlobRun, hl]
      · simpa [fetchBlobRun, hl] using ih

/-- If `fetchBlob` got past position `j`, the outcome at `j` was a failure. -/
theorem fetchBlobRun_fail_of_lt (outs : List Outcome) :
    ∀ j, j + 1 < (fetchBlobRun outs).2 →
      chainFails (outs.getD j none) = true := by
  induction outs with
  | nil => intro j h; simp [fetchBlobRun] at h
  | cons o rest ih =>
    intro j h
    cases o with
    | none =>
      cases j with
      | zero => simp [chainFails]
      | succ j =>
        simp only [fetchBlobRun] at h
        exact ih j (by omega)
    | some bb =>
      by_cases hl : 0 < bb.length
      · simp [fetchBlobRun, hl] at h
      · cases j with
        | zero =>
          simp only [List.getD_cons_zero, chainFails]
          simpa [List.isEmpty_iff, List.length_eq_zero] using hl
        | succ j =>
          simp only [fetchBlobRun, hl, if_false] at h
          exact ih j (by omega)

/-- When every strategy throws, the HD-variant loop ends with its initial
`blob` value, after attempting every strategy. -/
theorem corsLoop_all_none (outs : List Outcome)
    (h : ∀ o ∈ outs, o = none) :
    ∀ acc, corsLoop acc outs = (acc, outs.length) := by
  induction outs with
  | nil => intro acc; simp [corsLoop]
  | cons o rest ih =>
    intro acc
    have ho : o = none := h o (List.mem_cons_self _ _)
    subst ho
    have := ih (fun x hx => h x (List.mem_cons_of_mem _ hx)) acc
    simp [corsLoop, this]

/-- When every strategy fails (throws or yields an empty body), `fetchBlob`
reaches its final throw. -/
theorem fetchBlobRun_all_fail (outs : List Outcome)
    (h : ∀ o ∈ outs, chainFails o = true) :
    (fetchBlobRun outs).1 = none := by
  induction outs with
  | nil => simp [fetchBlobRun]
  | cons o rest ih =>
    have ho : chainFails o = true := h o (List.mem_cons_self _ _)
    have ih' := ih (fun x hx => h x (List.mem_cons_of_mem _ hx))
    cases o with
    | none => simpa [fetchBlobRun] using ih'
    | some bb =>
      have hbb : bb = [] := by
        simpa [chainFails, List.isEmpty_iff] using ho
      subst hbb
      simpa [fetchBlobRun] using ih'

/-- For every bound `n` smaller than the strategy count, the direct fetch is
not among the first `n` strategies of the HD variant. -/
theorem direct_not_in_corsLoop_take :
    ∀ n, n < 5 → StrategyKind.direct ∉ corsLoopKinds.take n := by
  decide

/-- For every bound `n` smaller than the strategy count, the direct fetch is
not among the first `n` strategies of `fetchBlob`. -/
theorem direct_not_in_fetchBlob_take :
    ∀ n, n < 3 → StrategyKind.direct ∉ fetchBlobKinds.take n := by
  decide

/-! ## Claim theorems for the acquisition chains -/

/-- C1: if strategies `1..k-1` each fail (throw or yield an empty blob) and
strategy `k` yields a non-empty blob, the acquisition chain returns exactly
that blob and invokes exactly the first `k` strategies, each once (the run
is a single in-order pass, so an attempt count of `k` means strategies
`1..k` ran once each and no later strategy ran).  Proved for both chain
loops of `src/unnamed/part_000`; positions are `0`-based here, so the claim
index `k` is `k + 1`. -/
theorem claim1_chain_returns_kth_success (outs : List Outcome) (k : Nat)
    (b : Blob)
    (hfail : ∀ o ∈ outs.take k, chainFails o = true)
    (hsucc : outs.getD k none = some b)
    (hb : b ≠ []) :
    fetchBlobRun outs = (some b, k + 1) ∧
      ∀ acc : Option Blob, corsLoop acc outs = (some b, k + 1) := by
  induction outs generalizing k with
  | nil => simp [List.getD] at hsucc
  | cons o rest ih =>
    cases k with
    | zero =>
      have ho : o = some b := by simpa using hsucc
      subst ho
      have hlen : 0 < b.length := List.length_pos.mpr hb
      refine ⟨by simp [fetchBlobRun, hlen], fun acc => by simp [corsLoop, hlen]⟩
    | succ k =>
      have ho : chainFails o = true := by
        refine hfail o ?_
        simp [List.take_succ_cons]
      have hsucc' : rest.getD k none = some b := by simpa using hsucc
      have hfail' : ∀ x ∈ rest.take k, chainFails x = true := by
        intro x hx
        refine hfail x ?_
        simp [List.take_succ_cons, hx]
      have IH := ih k hfail' hsucc'
      cases o with
      | none =>
        refine ⟨by simp [fetchBlobRun, IH.1], fun acc => by simp [corsLoop, IH.2 acc]⟩
      | some bb =>
        have hbb : bb = [] := by
          simpa [chainFails, List.isEmpty_iff] using ho
        subst hbb
        refine ⟨by simp [fetchBlobRun, IH.1], fun acc => by simp [corsLoop, IH.2 (some [])]⟩

/-- Witness for C1: the third strategy succeeds after a throw and an empty
blob, and both chains return its blob after exactly three attempts. -/
theorem claim1_witness :
    fetchBlobRun [none, some [], some [5, 6], some [7]] = (some [5, 6], 3) ∧
      corsLoop none [none, some [], some [5, 6], some [7]] = (some [5, 6], 3) := by
  have h := claim1_chain_returns_kth_success
    [none, some [], some [5, 6], some [7]] 2 [5, 6]
    (by decide) (by decide) (by decide)
  exact ⟨h.1, h.2 none⟩

/-- C9: every blob that `fetchBlob` returns has positive size; a zero-size
strategy result is never returned to the caller. -/
theorem claim9_fetchBlob_nonempty (outs : List Outcome) (b : Blob)
    (h : (fetchBlobRun outs).1 = some b) : 0 < b.length := by
  induction outs with
  | nil => simp [fetchBlobRun] at h
  | cons o rest ih =>
    cases o with
    | none =>
      simp only [fetchBlobRun] at h
      exact ih h
    | some bb =>
      by_cases hl : 0 < bb.length
      · simp [fetchBlobRun, hl] at h
        exact h ▸ hl
      · simp only [fetchBlobRun, hl, if_false] at h
        exact ih h

/-- Witness for C9: a run whose second strategy returns the non-empty blob. -/
theorem claim9_witness :
    (fetchBlobRun [some [], some [7]]).1 = some [7] ∧ 0 < ([7] : Blob).length :=
  ⟨by decide, claim9_fetchBlob_nonempty [some [], some [7]] [7] (by decide)⟩

/-- C2 counterexample: with outcome assignment
`[some [], none, none, none, none]` every one of the five strategies fails in
the claim's sense (the first yields a zero-length body, the rest throw), yet
the HD variant's `handleDownload` does NOT take the download-failed error
path: the stale empty blob survives the loop, the `if (blob)` test accepts
it, and a file materialization (object URL plus synthetic anchor click) is
performed with the empty blob. -/
theorem claim2_counterexample :
    (∀ o ∈ ([some [], none, none, none, none] : List Outcome),
        chainFails o = true) ∧
      loopDownload [some [], none, none, none, none] =
        DownloadResult.materialized [] ∧
      DownloadResult.materialized ([] : Blob) ≠ DownloadResult.failed := by
  refine ⟨by decide, by decide, by decide⟩

/-- C2 (amended): if every strategy raises an error (throws), the HD
variant's chain takes the download-failed error path and attempts no
materialization; the slideshow variant's chain fails without materialization
already when every strategy merely fails (throws or yields an empty body);
but when a strategy of the HD chain yields a zero-length body the empty blob
can be materialized (see the counterexample), and the `part_001` variant
reacts to total failure by synthetically clicking an anchor pointing at the
raw media URL instead of a materialization-free failure. -/
theorem claim2_amended_failure_paths :
    (∀ outs : List Outcome, (∀ o ∈ outs, o = none) →
        loopDownload outs = DownloadResult.failed) ∧
      (∀ outs : List Outcome, (∀ o ∈ outs, chainFails o = true) →
        slideshowDownload outs = DownloadResult.failed) ∧
      p1Download none none = P1Result.fallbackClick := by
  refine ⟨?_, ?_, rfl⟩
  · intro outs h
    unfold loopDownload
    rw [corsLoop_all_none outs h none]
  · intro outs h
    unfold slideshowDownload
    rw [fetchBlobRun_all_fail outs h]

/-- Witness for C2 (amended): all five strategies throwing makes the HD
chain fail, and two failing strategies make `fetchBlob` throw. -/
theorem claim2_witness :
    loopDownload [none, none, none, none, none] = DownloadResult.failed ∧
      slideshowDownload [some [], none] = DownloadResult.failed :=
  ⟨claim2_amended_failure_paths.1 [none, none, none, none, none] (by decide),
   claim2_amended_failure_paths.2.1 [some [], none] (by decide)⟩

/-- C3 counterexample: the ordering claim is false for the chain of the
first `src/index.tsx` variant.  In the run with outcomes
`[some [1], some [2], some [3]]` the direct fetch (which that chain places
first) is attempted, while the proxy at position `1` is never attempted at
all, let alone attempted-and-failed. -/
theorem claim3_counterexample :
    ¬ proxiesBeforeDirect indexKinds (fun outs => (indexChainRun outs).2) := by
  intro h
  have inst := h [some [1], some [2], some [3]] (by decide) (by decide)
    1 (by decide) (by decide)
  exact absurd inst.1 (by decide)

/-- C3 (amended): in the two chains of `src/unnamed/part_000` the direct
fetch is indeed never attempted until every proxy strategy has been
attempted and failed; but the chain of the first `src/index.tsx` variant and
the chain of `src/unnamed/part_001` attempt the direct fetch FIRST, before
any proxy. -/
theorem claim3_amended_order :
    (∀ outs : List Outcome, outs.length = 5 →
        StrategyKind.direct ∈ corsLoopAttempted outs →
        ∀ j, j < 4 →
          j < (corsLoop none outs).2 ∧ chainFails (outs.getD j none) = true) ∧
      (∀ outs : List Outcome, outs.length = 3 →
        StrategyKind.direct ∈ fetchBlobAttempted outs →
        ∀ j, j < 2 →
          j < (fetchBlobRun outs).2 ∧ chainFails (outs.getD j none) = true) ∧
      (∀ outs : List Outcome, outs ≠ [] →
        (indexAttempted outs).head? = some StrategyKind.direct) ∧
      (∀ o1 : Outcome, (p1Attempted o1).head? = some StrategyKind.direct) := by
  refine ⟨?_, ?_, ?_, ?_⟩
  · intro outs hlen hmem j hj
    have hle : (corsLoop none outs).2 ≤ 5 := by
      rw [← hlen]
      exact corsLoop_attempts_le outs none
    have hge : ¬ (corsLoop none outs).2 < 5 := by
      intro hlt
      exact direct_not_in_corsLoop_take _ hlt hmem
    have heq : (corsLoop none outs).2 = 5 := by omega
    exact ⟨by omega, corsLoop_fail_of_lt outs none j (by omega)⟩
  · intro outs hlen hmem j hj
    have hle : (fetchBlobRun outs).2 ≤ 3 := by
      rw [← hlen]
      exact fetchBlobRun_attempts_le outs
    have hge : ¬ (fetchBlobRun outs).2 < 3 := by
      intro hlt
      exact direct_not_in_fetchBlob_take _ hlt hmem
    have heq : (fetchBlobRun outs).2 = 3 := by omega
    exact ⟨by omega, fetchBlobRun_fail_of_lt outs j (by omega)⟩
  · intro outs hne
    cases outs with
    | nil => exact absurd rfl hne
    | cons o rest =>
      cases o with
      | some b => simp [indexAttempted, indexChainRun, indexKinds]
      | none =>
        simp [indexAttempted, indexChainRun, indexKinds, List.take_succ_cons]
  · intro o1
    cases o1 with
    | some b => simp [p1Attempted, p1Attempts, p1Kinds]
    | none => simp [p1Attempted, p1Attempts, p1Kinds]

/-- Witness for C3 (amended): a run of the HD chain in which the direct
fetch is attempted, showing all four proxies attempted-and-failed before it;
and the index/part_001 chains starting with the direct fetch. -/
theorem claim3_witness :
    (1 < (corsLoop none [some [], none, some [], none, some [1, 2]]).2 ∧
        chainFails
          (([some [], none, some [], none, some [1, 2]] : List Outcome).getD 1
            none) = true) ∧
      (indexAttempted [none, none, none]).head? = some StrategyKind.direct ∧
      (p1Attempted none).head? = some StrategyKind.direct := by
  refine ⟨?_, ?_, ?_⟩
  · exact claim3_amended_order.1 [some [], none, some [], none, some [1, 2]]
      (by decide) (by decide) 1 (by decide)
  · exact claim3_amended_order.2.2.1 [none, none, none] (by decide)
  · exact claim3_amended_order.2.2.2 none

/-! ## Helper lemmas about the history store -/

/-- One `addToHistory` call never produces more than `maxLen` entries. -/
theorem addToHistory_length_le (maxLen now : Nat) (item : VideoData)
    (prev : List HistoryItem) :
    (addToHistory maxLen now item prev).length ≤ maxLen := by
  unfold addToHistory
  rw [List.length_take]
  exact Nat.min_le_left _ _

/-- The record id of every entry kept by the dedup filter differs from the
added record's id. -/
theorem mem_filter_ne_id (item : VideoData) (prev : List HistoryItem)
    (e : HistoryItem)
    (he : e ∈ prev.filter (fun h => h.data.id != item.id)) :
    e.data.id ≠ item.id := by
  have := (List.mem_filter.mp he).2
  exact bne_iff_ne.mp this

/-- One `addToHistory` call preserves distinctness of the record ids. -/
theorem addToHistory_ids_nodup (maxLen now : Nat) (item : VideoData)
    (prev : List HistoryItem) (h : (historyIds prev).Nodup) :
    (historyIds (addToHistory maxLen now item prev)).Nodup := by
  unfold addToHistory historyIds
  rw [List.map_take]
  refine List.Nodup.sublist (List.take_sublist _ _) ?_
  rw [List.map_cons]
  refine List.nodup_cons.mpr ⟨?_, ?_⟩
  · intro hmem
    rcases List.mem_map.mp hmem with ⟨e, he, heq⟩
    exact mem_filter_ne_id item prev e he heq
  · refine List.Nodup.sublist ((List.filter_sublist _).map _) ?_
    exact h

/-- When the bound is positive, the entry just added is at the front. -/
theorem addToHistory_head (maxLen now : Nat) (item : VideoData)
    (prev : List HistoryItem) (h : 1 ≤ maxLen) :
    (addToHistory maxLen now item prev).head? = some ⟨now, item⟩ := by
  unfold addToHistory
  cases maxLen with
  | zero => omega
  | succ m => rw [List.take_succ_cons]; rfl

/-- No entry behind the front one carries the added record's id. -/
theorem addToHistory_tail_ne (maxLen now : Nat) (item : VideoData)
    (prev : List HistoryItem) :
    ∀ e ∈ (addToHistory maxLen now item prev).tail, e.data.id ≠ item.id := by
  unfold addToHistory
  cases maxLen with
  | zero =>
    intro e he
    simp [List.take_zero] at he
  | succ m =>
    rw [List.take_succ_cons]
    intro e he
    simp only [List.tail_cons] at he
    exact mem_filter_ne_id item prev e (List.mem_of_mem_take he)

/-- Any finite sequence of additions preserves the bound and the
distinct-ids invariant. -/
theorem runAdditions_invariant (maxLen : Nat)
    (calls : List (Nat × VideoData)) :
    ∀ init : List HistoryItem, init.length ≤ maxLen →
      (historyIds init).Nodup →
      (runAdditions maxLen init calls).length ≤ maxLen ∧
        (historyIds (runAdditions maxLen init calls)).Nodup := by
  induction calls with
  | nil =>
    intro init h1 h2
    exact ⟨h1, h2⟩
  | cons c cs ih =>
    intro init h1 h2
    have step1 := addToHistory_length_le maxLen c.1 c.2 init
    have step2 := addToHistory_ids_nodup maxLen c.1 c.2 init h2
    simpa [runAdditions, List.foldl_cons] using
      ih (addToHistory maxLen c.1 c.2 init) step1 step2

/-! ## Claim theorems for the history store -/

/-- C4 counterexample: the claim quantifies over EVERY initial history list
and EVERY finite call sequence, but (a) starting from a list holding two
entries with the same record id `"a"`, adding a record with a different id
leaves both `"a"` entries in place, so the resulting list does contain two
entries with the same record id; and (b) with the empty call sequence and an
initial list of eleven distinct entries, the resulting list exceeds the
bound of 10. -/
theorem claim4_counterexample :
    (historyIds
        (addToHistory 10 99 (sampleVideo "b") (sampleHistory ["a", "a"])) =
        ["b", "a", "a"] ∧
      ¬ (historyIds
          (addToHistory 10 99 (sampleVideo "b")
            (sampleHistory ["a", "a"]))).Nodup) ∧
      (runAdditions 10
          (sampleHistory ["0", "1", "2", "3", "4", "5", "6", "7", "8", "9", "10"])
          [] =
        sampleHistory ["0", "1", "2", "3", "4", "5", "6", "7", "8", "9", "10"] ∧
        10 <
          (runAdditions 10
              (sampleHistory
                ["0", "1", "2", "3", "4", "5", "6", "7", "8", "9", "10"])
              []).length) := by
  refine ⟨⟨by decide, by decide⟩, ⟨rfl, by decide⟩⟩

/-- C4 (amended): provided the initial history list is within the configured
bound and holds no two entries with the same record id (as every list the
app builds from empty does), the bound and the distinct-ids property hold
after every finite sequence of `addToHistory` calls; moreover every single
call keeps at most `maxLen` entries, preserves distinctness of ids, puts the
new entry at the front, and leaves no other entry carrying the added id. -/
theorem claim4_amended_history_invariants (maxLen now : Nat)
    (item : VideoData) (prev init : List HistoryItem)
    (calls : List (Nat × VideoData)) :
    (addToHistory maxLen now item prev).length ≤ maxLen ∧
      ((historyIds prev).Nodup →
        (historyIds (addToHistory maxLen now item prev)).Nodup) ∧
      (1 ≤ maxLen →
        (addToHistory maxLen now item prev).head? = some ⟨now, item⟩) ∧
      (∀ e ∈ (addToHistory maxLen now item prev).tail,
        e.data.id ≠ item.id) ∧
      (init.length ≤ maxLen → (historyIds init).Nodup →
        (runAdditions maxLen init calls).length ≤ maxLen ∧
          (historyIds (runAdditions maxLen init calls)).Nodup) :=
  ⟨addToHistory_length_le maxLen now item prev,
   addToHistory_ids_nodup maxLen now item prev,
   addToHistory_head maxLen now item prev,
   addToHistory_tail_ne maxLen now item prev,
   runAdditions_invariant maxLen calls init⟩

/-- Witness for C4 (amended), at the bound 10 of `src/index.tsx` and the
bound 50 of the slideshow variant. -/
theorem claim4_witness :
    ((addToHistory 10 7 (sampleVideo "b") (sampleHistory ["a", "c"])).length ≤
        10 ∧
      (historyIds
          (addToHistory 10 7 (sampleVideo "b") (sampleHistory ["a", "c"]))).Nodup ∧
      (addToHistory 10 7 (sampleVideo "b") (sampleHistory ["a", "c"])).head? =
        some ⟨7, sampleVideo "b"⟩) ∧
      ((runAdditions 50 (sampleHistory ["a"]) [(8, sampleVideo "a")]).length ≤
          50 ∧
        (historyIds
            (runAdditions 50 (sampleHistory ["a"]) [(8, sampleVideo "a")])).Nodup) := by
  have h10 := claim4_amended_history_invariants 10 7 (sampleVideo "b")
    (sampleHistory ["a", "c"]) [] []
  have h50 := claim4_amended_history_invariants 50 8 (sampleVideo "a")
    (sampleHistory ["a"]) (sampleHistory ["a"]) [(8, sampleVideo "a")]
  refine ⟨⟨h10.1, h10.2.1 (by decide), h10.2.2.1 (by decide)⟩, ?_⟩
  exact h50.2.2.2.2 (by decide) (by decide)

/-! ## Claim theorems for resolver classification, filenames, clearing -/

/-- C6: on a non-success status code the history list is unchanged, and the
provider message (defaulted like `msg || "Failed to fetch video."`) is
classified as in the source: a message containing `"private"`
(case-insensitively) gives the private-or-deleted error; otherwise a message
containing `"parsing"` gives the region-restricted error; otherwise the
message is passed through verbatim. -/
theorem claim6_failure_classification (resp : LookupResponse) (now : Nat)
    (hist : List HistoryItem) (h : resp.code ≠ 0) :
    (processResponse resp now hist).2 = hist ∧
      (mentionsPrivate (jsOrDefault resp.msg "Failed to fetch video.") = true →
        (processResponse resp now hist).1 =
          some ResolveError.privateOrDeleted) ∧
      (mentionsPrivate (jsOrDefault resp.msg "Failed to fetch video.") = false →
        mentionsParsing (jsOrDefault resp.msg "Failed to fetch video.") = true →
        (processResponse resp now hist).1 =
          some ResolveError.regionRestricted) ∧
      (mentionsPrivate (jsOrDefault resp.msg "Failed to fetch video.") = false →
        mentionsParsing (jsOrDefault resp.msg "Failed to fetch video.") = false →
        (processResponse resp now hist).1 =
          some (ResolveError.generic
            (jsOrDefault resp.msg "Failed to fetch video."))) := by
  unfold processResponse
  rw [if_neg h]
  refine ⟨rfl, ?_, ?_, ?_⟩
  · intro hp
    simp [classifyFailure, hp]
  · intro hp hq
    simp [classifyFailure, hp, hq]
  · intro hp hq
    simp [classifyFailure, hp, hq]

/-- Witness for C6: the spec scenario `{code: -1, msg: "This video is
private"}` yields the private-or-deleted error and creates no history
entry. -/
theorem claim6_witness :
    (processResponse ⟨-1, some "This video is private", none⟩ 0
        (sampleHistory ["a"])).1 = some ResolveError.privateOrDeleted ∧
      (processResponse ⟨-1, some "This video is private", none⟩ 0
        (sampleHistory ["a"])).2 = sampleHistory ["a"] := by
  have h := claim6_failure_classification
    ⟨-1, some "This video is private", none⟩ 0 (sampleHistory ["a"])
    (by decide)
  exact ⟨h.2.1 (by decide), h.1⟩

/-- C7: the derived filename is a function of the record id, the title, the
quality/type label and the media kind only (stability), and for two records
with the same title but different ids, requested with the same label and
kind, the filenames are distinct (the id component disambiguates). -/
theorem claim7_filename_stable_injective (r1 r2 : VideoData)
    (label : String) (kind : MediaKind) :
    (r1.id = r2.id → r1.title = r2.title →
        filenameFor r1 label kind = filenameFor r2 label kind) ∧
      (r1.id ≠ r2.id → r1.title = r2.title →
        filenameFor r1 label kind ≠ filenameFor r2 label kind) := by
  constructor
  · intro h1 h2
    unfold filenameFor deriveFilename
    rw [h1, h2]
  · intro h1 h2 heq
    apply h1
    unfold filenameFor deriveFilename at heq
    rw [h2] at heq
    have hdata := congrArg String.data heq
    simp only [String.data_append, List.append_assoc] at hdata
    have h3 := List.append_cancel_left hdata
    have h4 := List.append_cancel_right h3
    exact String.ext h4

/-- Witness for C7: a record sharing id and title with another but differing
elsewhere gets the same filename, while a different id with the same title
gets a different filename. -/
theorem claim7_witness :
    filenameFor (sampleVideo "1") "1080p" MediaKind.video =
        filenameFor
          ⟨"1", "u2", "p2", none, "c2", "title", "n2", "a2", "9", "9"⟩
          "1080p" MediaKind.video ∧
      filenameFor (sampleVideo "1") "1080p" MediaKind.video ≠
        filenameFor (sampleVideo "2") "1080p" MediaKind.video := by
  have hstab := (claim7_filename_stable_injective (sampleVideo "1")
    ⟨"1", "u2", "p2", none, "c2", "title", "n2", "a2", "9", "9"⟩
    "1080p" MediaKind.video).1 (by decide) (by decide)
  have hinj := (claim7_filename_stable_injective (sampleVideo "1")
    (sampleVideo "2") "1080p" MediaKind.video).2 (by decide) (by decide)
  exact ⟨hstab, hinj⟩

/-- C8 counterexample: after the clear operation completes (click handler
followed by the history persistence effect), the local-storage key
`"tiksave-history"` does hold a value, namely the serialized empty list;
the claim that no value remains stored under the key is false. -/
theorem claim8_counterexample :
    (clearHistoryOp ⟨sampleHistory ["a"], some "old"⟩).storedHistory =
        some "[]" ∧
      (clearHistoryOp ⟨sampleHistory ["a"], some "old"⟩).storedHistory ≠
        none := by
  constructor
  · rfl
  · intro hcontra
    simp [clearHistoryOp, clearHistoryClick, historyPersistEffect] at hcontra

/-- C8 (amended): clearing sets the in-memory list to empty and removes the
key, but the history persistence effect immediately re-writes the key with
the serialization of the empty list, so after the operation the key holds
`"[]"` rather than no value. -/
theorem claim8_amended_clear_rewrites_key (st : AppStorage) :
    (clearHistoryOp st).history = [] ∧
      (clearHistoryOp st).storedHistory = some "[]" :=
  ⟨rfl, rfl⟩

/-! ## Helper lemmas about the favorites store -/

/-- Membership in the favorites after filtering out an id: present exactly
when the id differs from the removed one and it was present before. -/
theorem isFavorite_filter_iff (favs : List VideoData) (x i : String) :
    isFavorite (favs.filter (fun v => v.id != x)) i = true ↔
      i ≠ x ∧ isFavorite favs i = true := by
  unfold isFavorite
  rw [List.any_eq_true, List.any_eq_true]
  constructor
  · rintro ⟨v, hv, hvi⟩
    have hmem := List.mem_filter.mp hv
    have hne : v.id ≠ x := bne_iff_ne.mp hmem.2
    have hid : v.id = i := beq_iff_eq.mp hvi
    exact ⟨hid ▸ hne, ⟨v, hmem.1, hvi⟩⟩
  · rintro ⟨hix, v, hv, hvi⟩
    have hid : v.id = i := beq_iff_eq.mp hvi
    refine ⟨v, List.mem_filter.mpr ⟨hv, ?_⟩, hvi⟩
    exact bne_iff_ne.mpr (by rw [hid]; exact hix)

/-- When no favorite matches the id, `isFavorite` is false. -/
theorem isFavorite_false_of_find?_none (favs : List VideoData) (x : String)
    (h : favs.find? (fun v => v.id == x) = none) :
    isFavorite favs x = false := by
  unfold isFavorite
  rw [List.any_eq_false]
  exact List.find?_eq_none.mp h

/-! ## Claim theorem for the favorites store -/

/-- C10: a single `toggleFavorite` makes the record's id a favorite exactly
when it was not one before, and toggling twice with the same record leaves
the set of favorite ids unchanged (membership of every id is restored). -/
theorem claim10_toggle_involution (video : VideoData)
    (favs : List VideoData) :
    (isFavorite (toggleFavorite video favs) video.id =
        !isFavorite favs video.id) ∧
      ∀ i : String,
        isFavorite (toggleFavorite video (toggleFavorite video favs)) i =
          isFavorite favs i := by
  cases hfind : favs.find? (fun v => v.id == video.id) with
  | none =>
    have hnot : isFavorite favs video.id = false :=
      isFavorite_false_of_find?_none favs video.id hfind
    have htog : toggleFavorite video favs = video :: favs := by
      unfold toggleFavorite
      rw [hfind]
    have htog2 :
        toggleFavorite video (video :: favs) =
          favs.filter (fun v => v.id != video.id) := by
      unfold toggleFavorite
      have hhead : (video :: favs).find? (fun v => v.id == video.id) =
          some video := by
        simp [List.find?_cons]
      rw [hhead]
      simp [List.filter_cons]
    constructor
    · rw [htog, hnot]
      simp [isFavorite]
    · intro i
      rw [htog, htog2]
      rcases eq_or_ne i video.id with heq | hne
      · subst heq
        rw [hnot]
        rw [Bool.eq_iff_iff]
        rw [isFavorite_filter_iff]
        simp
      · rw [Bool.eq_iff_iff, isFavorite_filter_iff]
        constructor
        · rintro ⟨_, hfav⟩
          exact hfav
        · intro hfav
          exact ⟨hne, hfav⟩
  | some w =>
    have hw0 := List.find?_some hfind
    have hw : (w.id == video.id) = true := by simpa using hw0
    have hwmem : w ∈ favs := List.mem_of_find?_eq_some hfind
    have hyes : isFavorite favs video.id = true := by
      unfold isFavorite
      exact List.any_eq_true.mpr ⟨w, hwmem, hw⟩
    have htog : toggleFavorite video favs =
        favs.filter (fun v => v.id != video.id) := by
      unfold toggleFavorite
      rw [hfind]
    have hfindNone :
        (favs.filter (fun v => v.id != video.id)).find?
            (fun v => v.id == video.id) = none := by
      rw [List.find?_eq_none]
      intro v hv
      have hne := bne_iff_ne.mp (List.mem_filter.mp hv).2
      simp [hne]
    have htog2 :
        toggleFavorite video (favs.filter (fun v => v.id != video.id)) =
          video :: favs.filter (fun v => v.id != video.id) := by
      unfold toggleFavorite
      rw [hfindNone]
    constructor
    · rw [htog, hyes]
      rw [Bool.eq_iff_iff]
      rw [isFavorite_filter_iff]
      simp
    · intro i
      rw [htog, htog2]
      rcases eq_or_ne i video.id with heq | hne
      · subst heq
        rw [hyes]
        simp [isFavorite]
      · have hvi : (video.id == i) = false := by
          simp
          intro hcontra
          exact hne hcontra.symm
        rw [Bool.eq_iff_iff]
        simp only [isFavorite, List.any_cons, hvi, Bool.false_or]
        have := isFavorite_filter_iff favs video.id i
        unfold isFavorite at this
        rw [this]
        constructor
        · rintro ⟨_, hfav⟩
          exact hfav
        · intro hfav
          exact ⟨hne, hfav⟩

/-! ## Helper lemmas about the URL matcher -/

/-- Matching a concatenated literal is matching its parts in sequence. -/
theorem dropLit_append (p q cs : List Char) :
    dropLit (p ++ q) cs = (dropLit p cs).bind (dropLit q) := by
  induction p generalizing cs with
  | nil => simp [dropLit]
  | cons a ps ih =>
    cases cs with
    | nil => simp [dropLit]
    | cons c cs =>
      by_cases h : c = a
      · simp [dropLit, h, ih]
      · simp [dropLit, h]

/-- A literal always matches at the front of itself. -/
theorem dropLit_self (p cs : List Char) : dropLit p (p ++ cs) = some cs := by
  induction p with
  | nil => simp [dropLit]
  | cons a ps ih => simp [dropLit, ih]

/-- Every match of the full pattern starts with the literal `http`, so where
`http` does not occur the pattern cannot match. -/
theorem matchScheme_none_of_no_http (cs : List Char)
    (h : dropLit httpLit cs = none) : matchScheme cs = none := by
  have h1 : dropLit httpsSchemeLit cs = none := by
    have e : httpsSchemeLit = httpLit ++ ['s', ':', '/', '/'] := rfl
    rw [e, dropLit_append, h]
    rfl
  have h2 : dropLit httpSchemeLit cs = none := by
    have e : httpSchemeLit = httpLit ++ [':', '/', '/'] := rfl
    rw [e, dropLit_append, h]
    rfl
  unfold matchScheme
  rw [h1, h2]

/-- The leftmost scan skips any leading region in which `http` never
occurs. -/
theorem scanMatch_append_of_no_http (before tail : List Char)
    (h : ∀ i, i < before.length →
      dropLit httpLit ((before ++ tail).drop i) = none) :
    scanMatch (before ++ tail) = scanMatch tail := by
  induction before with
  | nil => simp
  | cons b bs ih =>
    have h0 : dropLit httpLit (b :: (bs ++ tail)) = none := by
      have hh := h 0 (by simp)
      simpa using hh
    have hms : matchScheme (b :: (bs ++ tail)) = none :=
      matchScheme_none_of_no_http _ h0
    have hstep : scanMatch (b :: (bs ++ tail)) = scanMatch (bs ++ tail) := by
      simp only [scanMatch, hms]
    rw [List.cons_append, hstep]
    refine ih ?_
    intro i hi
    have hh := h (i + 1) (by simpa using Nat.succ_lt_succ hi)
    simpa [List.drop_succ_cons] using hh

/-- The greedy `[^\s]+` consumes exactly the embedded URL tail when the
remainder of the text starts with whitespace (or is empty). -/
theorem takeNonWs_append (rest after : List Char)
    (hrest : ∀ c ∈ rest, isJsWs c = false)
    (hafter : after = [] ∨ ∃ c cs, after = c :: cs ∧ isJsWs c = true) :
    takeNonWs (rest ++ after) = rest := by
  induction rest with
  | nil =>
    rcases hafter with h | ⟨c, cs, hcc, hws⟩
    · simp [h, takeNonWs]
    · simp [hcc, takeNonWs, hws]
  | cons r rs ih =>
    have hr : isJsWs r = false := hrest r (by simp)
    have ih' := ih (fun c hc => hrest c (by simp [hc]))
    simp [takeNonWs, hr, ih']

/-- Evaluation of the host-tail matcher on an embedded URL. -/
theorem matchHostTail_eval (rest after : List Char) (hne : rest ≠ [])
    (hrest : ∀ c ∈ rest, isJsWs c = false)
    (hafter : after = [] ∨ ∃ c cs, after = c :: cs ∧ isJsWs c = true) :
    matchHostTail (hostLit ++ (rest ++ after)) = some (hostLit ++ rest) := by
  have htake := takeNonWs_append rest after hrest hafter
  have hie : rest.isEmpty = false := by
    simpa [List.isEmpty_iff] using hne
  simp only [matchHostTail, dropLit_self, htake, hie]
  simp

/-- Evaluation of the subdomain alternation on an embedded URL: whichever of
the six admissible subdomains (including none) the URL carries, the
alternation matches it and then the host tail. -/
theorem matchSub_eval (sub rest after : List Char)
    (hsub : sub = [] ∨ sub = wwwLit ∨ sub = vmLit ∨ sub = vtLit ∨
      sub = mLit ∨ sub = tLit)
    (hne : rest ≠ [])
    (hrest : ∀ c ∈ rest, isJsWs c = false)
    (hafter : after = [] ∨ ∃ c cs, after = c :: cs ∧ isJsWs c = true) :
    matchSub subdomainAlts (sub ++ (hostLit ++ (rest ++ after))) =
      some (sub ++ (hostLit ++ rest)) := by
  have hhost := matchHostTail_eval rest after hne hrest hafter
  rcases hsub with h | h | h | h | h | h <;> subst h
  · have e1 : dropLit wwwLit (hostLit ++ (rest ++ after)) = none := rfl
    have e2 : dropLit vmLit (hostLit ++ (rest ++ after)) = none := rfl
    have e3 : dropLit vtLit (hostLit ++ (rest ++ after)) = none := rfl
    have e4 : dropLit mLit (hostLit ++ (rest ++ after)) = none := rfl
    have e5 : dropLit tLit (hostLit ++ (rest ++ after)) = none := rfl
    simp only [subdomainAlts, List.nil_append, matchSub, e1, e2, e3, e4, e5,
      hhost]
  · simp only [subdomainAlts, matchSub, dropLit_self, hhost]
  · have e1 : dropLit wwwLit (vmLit ++ (hostLit ++ (rest ++ after))) = none :=
      rfl
    simp only [subdomainAlts, matchSub, e1, dropLit_self, hhost]
  · have e1 : dropLit wwwLit (vtLit ++ (hostLit ++ (rest ++ after))) = none :=
      rfl
    have e2 : dropLit vmLit (vtLit ++ (hostLit ++ (rest ++ after))) = none :=
      rfl
    simp only [subdomainAlts, matchSub, e1, e2, dropLit_self, hhost]
  · have e1 : dropLit wwwLit (mLit ++ (hostLit ++ (rest ++ after))) = none :=
      rfl
    have e2 : dropLit vmLit (mLit ++ (hostLit ++ (rest ++ after))) = none :=
      rfl
    have e3 : dropLit vtLit (mLit ++ (hostLit ++ (rest ++ after))) = none :=
      rfl
    simp only [subdomainAlts, matchSub, e1, e2, e3, dropLit_self, hhost]
  · have e1 : dropLit wwwLit (tLit ++ (hostLit ++ (rest ++ after))) = none :=
      rfl
    have e2 : dropLit vmLit (tLit ++ (hostLit ++ (rest ++ after))) = none :=
      rfl
    have e3 : dropLit vtLit (tLit ++ (hostLit ++ (rest ++ after))) = none :=
      rfl
    have e4 : dropLit mLit (tLit ++ (hostLit ++ (rest ++ after))) = none :=
      rfl
    simp only [subdomainAlts, matchSub, e1, e2, e3, e4, dropLit_self, hhost]

/-- Evaluation of the full pattern matcher at the start of an embedded URL. -/
theorem matchScheme_eval (scheme sub rest after : List Char)
    (hscheme : scheme = httpSchemeLit ∨ scheme = httpsSchemeLit)
    (hsub : sub = [] ∨ sub = wwwLit ∨ sub = vmLit ∨ sub = vtLit ∨
      sub = mLit ∨ sub = tLit)
    (hne : rest ≠ [])
    (hrest : ∀ c ∈ rest, isJsWs c = false)
    (hafter : after = [] ∨ ∃ c cs, after = c :: cs ∧ isJsWs c = true) :
    matchScheme (scheme ++ (sub ++ (hostLit ++ (rest ++ after)))) =
      some (scheme ++ (sub ++ (hostLit ++ rest))) := by
  have hmsub := matchSub_eval sub rest after hsub hne hrest hafter
  rcases hscheme with h | h <;> subst h
  · have hfail :
        dropLit httpsSchemeLit
          (httpSchemeLit ++ (sub ++ (hostLit ++ (rest ++ after)))) = none :=
      rfl
    simp only [matchScheme, hfail, dropLit_self, hmsub, Option.map_some']
  · simp only [matchScheme, dropLit_self, hmsub, Option.map_some']

/-- The leftmost scan succeeds immediately where the pattern matches. -/
theorem scanMatch_cons_eq (c : Char) (cs m : List Char)
    (h : matchScheme (c :: cs) = some m) : scanMatch (c :: cs) = some m := by
  simp only [scanMatch, h]

/-! ## Claim theorem for the link validator -/

/-- C5: for input text of the shape `before ++ url ++ after`, where `url` is
a TikTok URL (scheme, one of the recognized optional subdomains,
`tiktok.com/` and a non-empty whitespace-free tail), the literal `http` does
not occur anywhere in the region before the URL, and the URL is followed by
whitespace or the end of the text, `extractUrl` returns exactly the URL
substring with trailing punctuation characters stripped from its end. -/
theorem claim5_extract_embedded_url (before after rest scheme sub : List Char)
    (hscheme : scheme = httpSchemeLit ∨ scheme = httpsSchemeLit)
    (hsub : sub = [] ∨ sub = wwwLit ∨ sub = vmLit ∨ sub = vtLit ∨
      sub = mLit ∨ sub = tLit)
    (hne : rest ≠ [])
    (hrest : ∀ c ∈ rest, isJsWs c = false)
    (hbefore : ∀ i, i < before.length →
      dropLit httpLit
        ((before ++ (scheme ++ (sub ++ (hostLit ++ (rest ++ after))))).drop i) =
        none)
    (hafter : after = [] ∨ ∃ c cs, after = c :: cs ∧ isJsWs c = true) :
    extractUrl
        (String.mk
          (before ++ (scheme ++ (sub ++ (hostLit ++ (rest ++ after)))))) =
      some (String.mk (dropTrailPunct (scheme ++ (sub ++ (hostLit ++ rest))))) := by
  have hms := matchScheme_eval scheme sub rest after hscheme hsub hne hrest
    hafter
  have hscan1 :
      scanMatch (before ++ (scheme ++ (sub ++ (hostLit ++ (rest ++ after))))) =
        scanMatch (scheme ++ (sub ++ (hostLit ++ (rest ++ after)))) :=
    scanMatch_append_of_no_http before _ hbefore
  have hscan2 :
      scanMatch (scheme ++ (sub ++ (hostLit ++ (rest ++ after)))) =
        some (scheme ++ (sub ++ (hostLit ++ rest))) := by
    rcases hscheme with h | h <;> subst h
    · exact scanMatch_cons_eq 'h' _ _ hms
    · exact scanMatch_cons_eq 'h' _ _ hms
  have e :
      (String.mk
          (before ++ (scheme ++ (sub ++ (hostLit ++ (rest ++ after)))))).toList =
        before ++ (scheme ++ (sub ++ (hostLit ++ (rest ++ after)))) := rfl
  simp only [extractUrl, e, hscan1, hscan2]

/-- Witness for C5: the spec scenario, a URL with the `vt.` subdomain
embedded in prose, extracted exactly (the trailing `/` is kept, no trailing
punctuation present). -/
theorem claim5_witness :
    extractUrl "check this out https://vt.tiktok.com/ZSabc123/ lol" =
      some "https://vt.tiktok.com/ZSabc123/" := by
  have h := claim5_extract_embedded_url "check this out ".toList
    " lol".toList "ZSabc123/".toList httpsSchemeLit vtLit
    (Or.inr rfl) (Or.inr (Or.inr (Or.inr (Or.inl rfl)))) (by decide)
    (by decide) (by decide) (Or.inr ⟨' ', "lol".toList, rfl, by decide⟩)
  have e1 :
      String.mk
          ("check this out ".toList ++
            (httpsSchemeLit ++
              (vtLit ++ (hostLit ++ ("ZSabc123/".toList ++ " lol".toList))))) =
        "check this out https://vt.tiktok.com/ZSabc123/ lol" := by decide
  have e2 :
      some (String.mk
          (dropTrailPunct
            (httpsSchemeLit ++ (vtLit ++ (hostLit ++ "ZSabc123/".toList))))) =
        some "https://vt.tiktok.com/ZSabc123/" := by decide
  rw [← e1, ← e2]
  exact h
